import Mathlib

/-!
Verification of the measurement core of the calm-o-meter typing stress
analyzer (`calm-o-meter.py`): the Levenshtein distance routine
`levenshtein`, the metrics derivation `compute_metrics` (WPM, accuracy,
error count, 0-100 stress score) and the feedback classifier
`feedback_text` (mood thresholds and tips).

Modelling choices: Python strings become `List Char`; Python floats
become exact rationals `ℚ` (so `1e-6` is `1/1000000` and `0.85` is
`85/100`); the dict returned by `compute_metrics` becomes the structure
`Metrics`; the mood sentence and the tip strings chosen by
`feedback_text` are modelled by the `Mood` enumeration and the tip list
`feedback_tips`, keeping the branch structure of the source.
-/

namespace CalmOMeter

/-- Inner loop of `levenshtein`: given the current character `ca` of `a`,
the remaining characters of `b` (columns `j, j+1, ...`), the window of the
previous row starting at entry `prev[j-1]`, and the already computed entry
`curr[j-1]`, produce the row entries `curr[j..lb]`.  Mirrors the
`for j, cb in enumerate(b, start=1)` loop with
`curr[j] = min(ins, delete, replace)`. -/
def rowStep (ca : Char) : List Char → List Nat → Nat → List Nat
  | cb :: bs, pj1 :: pj :: ps, cprev =>
    let cost : Nat := if ca = cb then 0 else 1
    let v := min (min (cprev + 1) (pj + 1)) (pj1 + cost)
    v :: rowStep ca bs (pj :: ps) v
  | _, _, _ => []

/-- Outer loop of `levenshtein`: fold rows over the characters of `a`,
`i` being the row index; each row starts with its index (`curr = [i] + ...`)
and the previous row is replaced by the current one. -/
def levLoop (b : List Char) : List Char → List Nat → Nat → List Nat
  | [], prev, _ => prev
  | ca :: rest, prev, i => levLoop b rest (i :: rowStep ca b prev i) (i + 1)

/-- Levenshtein distance, translated from `levenshtein` in
`calm-o-meter.py`: exact-equality short circuit, the two empty-string
cases, then the two-row dynamic program seeded with `prev = [0..lb]`; the
answer is `prev[lb]` of the final row. -/
def levenshtein (a b : List Char) : Nat :=
  if a = b then 0
  else if a.length = 0 then b.length
  else if b.length = 0 then a.length
  else (levLoop b a (List.range (b.length + 1)) 1).getD b.length 0

/-- Specification-side Levenshtein distance: the classic textbook
recurrence on the heads of the two lists (delete from the left string,
insert from the right string, or substitute, unit costs). -/
def levSpec : List Char → List Char → Nat
  | [], ys => ys.length
  | _ :: xs, [] => xs.length + 1
  | x :: xs, y :: ys =>
    min (min (levSpec (x :: xs) ys + 1) (levSpec xs (y :: ys) + 1))
      (levSpec xs ys + if x = y then 0 else 1)
termination_by xs ys => (xs.length, ys.length)

/-- An edit script aligning two strings: `Edits a b n` holds when `a` can
be transformed into `b` by `n` single-character operations — each
operation an insertion, a deletion or a substitution of one character,
costing 1 — processing the strings left to right (`keep` copies a
matching character at no cost). -/
inductive Edits : List Char → List Char → Nat → Prop
  | nil : Edits [] [] 0
  | keep (c : Char) {xs ys : List Char} {n : Nat} :
      Edits xs ys n → Edits (c :: xs) (c :: ys) n
  | subst (c d : Char) {xs ys : List Char} {n : Nat} :
      Edits xs ys n → Edits (c :: xs) (d :: ys) (n + 1)
  | ins (d : Char) {xs ys : List Char} {n : Nat} :
      Edits xs ys n → Edits xs (d :: ys) (n + 1)
  | del (c : Char) {xs ys : List Char} {n : Nat} :
      Edits xs ys n → Edits (c :: xs) ys (n + 1)

/-- Possible moods reported by `feedback_text`. -/
inductive Mood
  | Relaxed
  | Mild
  | Stressed
  | High
deriving DecidableEq

/-- Result record of `compute_metrics` (the Python dict
`{"wpm": ..., "accuracy": ..., "errors": ..., "stress": ...}`). -/
structure Metrics where
  wpm : ℚ
  accuracy : ℚ
  errors : Nat
  stress : ℚ
deriving DecidableEq

/-- Minutes floor used by `compute_metrics`:
`minutes = max(elapsed_seconds / 60.0, 1e-6)`. -/
def minutesOf (elapsed_seconds : ℚ) : ℚ :=
  max (elapsed_seconds / 60) (1 / 1000000)

/-- Metrics derivation, translated from `compute_metrics` in
`calm-o-meter.py`. -/
def compute_metrics (target typed : List Char) (elapsed_seconds : ℚ) : Metrics :=
  let target_len := target.length
  if target_len = 0 then
    { wpm := 0, accuracy := 1, errors := 0, stress := 0 }
  else
    let dist := levenshtein target typed
    let correct_chars : ℚ := max 0 ((target_len : ℚ) - (dist : ℚ))
    let minutes := minutesOf elapsed_seconds
    let wpm := (correct_chars / 5) / minutes
    let accuracy := max 0 (((target_len : ℚ) - (dist : ℚ)) / (target_len : ℚ))
    let baseline_wpm : ℚ := 35
    let wpm_component := max 0 ((baseline_wpm - wpm) / baseline_wpm)
    let accuracy_component := 1 - accuracy
    let raw := 1 / 2 * wpm_component + 1 / 2 * accuracy_component
    let stress := min 100 (max 0 (raw * 100))
    { wpm := wpm, accuracy := accuracy, errors := dist, stress := stress }

/-- Mood classification of `feedback_text` in `calm-o-meter.py`: the
`if s < 20 / elif s < 40 / elif s < 70 / else` ladder on the stress
score. -/
def feedback_mood (metrics : Metrics) : Mood :=
  let s := metrics.stress
  if s < 20 then Mood.Relaxed
  else if s < 40 then Mood.Mild
  else if s < 70 then Mood.Stressed
  else Mood.High

/-- Tip list built by `feedback_text` in `calm-o-meter.py`: the accuracy
tip when `acc < 0.85`, then the speed tip when `wpm < 25`, and the
fallback tip exactly when the list is still empty. -/
def feedback_tips (metrics : Metrics) : List String :=
  let acc := metrics.accuracy
  let wpm := metrics.wpm
  let tips : List String :=
    (if acc < 85 / 100 then ["Focus on accuracy over speed; make fewer mistakes."] else [])
      ++ (if wpm < 25 then ["Practice typing regularly to increase speed (short daily drills)."] else [])
  if tips = [] then ["Keep up the good work — maintain steady practice!"] else tips

/-- First target sentence of the application
(`StressAnalyzerApp.targets[0]`). -/
def sampleTarget : List Char :=
  "The quick brown fox jumps over the lazy dog.".data

/-- Specification-side metrics formulas, written exactly as the spec and
claim C2 state them: `errors = editDistance(target, typed)`;
`wpm = (max(0, len(target) - errors) / 5) / max(elapsedSeconds / 60, 1e-6)`;
`accuracy = max(0, (len(target) - errors) / len(target))`; and
`stress = clamp(100 * (0.5 * max(0, (35 - wpm) / 35) + 0.5 * (1 - accuracy)), 0, 100)`. -/
def computeMetricsSpec (target typed : List Char) (elapsedSeconds : ℚ) : Metrics :=
  let errors := levenshtein target typed
  let wpm : ℚ :=
    (max 0 ((target.length : ℚ) - (errors : ℚ)) / 5) / max (elapsedSeconds / 60) (1 / 1000000)
  let accuracy : ℚ := max 0 (((target.length : ℚ) - (errors : ℚ)) / (target.length : ℚ))
  let stress : ℚ :=
    min (max (100 * (1 / 2 * max 0 ((35 - wpm) / 35) + 1 / 2 * (1 - accuracy))) 0) 100
  { wpm := wpm, accuracy := accuracy, errors := errors, stress := stress }

theorem levSpec_nil_left (ys : List Char) : levSpec [] ys = ys.length := by
  simp [levSpec]

theorem levSpec_nil_right (xs : List Char) : levSpec xs [] = xs.length := by
  cases xs <;> simp [levSpec]

theorem levSpec_cons_cons (x y : Char) (xs ys : List Char) :
    levSpec (x :: xs) (y :: ys) =
      min (min (levSpec (x :: xs) ys + 1) (levSpec xs (y :: ys) + 1))
        (levSpec xs ys + if x = y then 0 else 1) := by
  rw [levSpec]

theorem edits_nil_left : ∀ ys : List Char, Edits [] ys ys.length
  | [] => Edits.nil
  | y :: ys => Edits.ins y (edits_nil_left ys)

theorem edits_nil_right : ∀ xs : List Char, Edits xs [] xs.length
  | [] => Edits.nil
  | x :: xs => Edits.del x (edits_nil_right xs)

/-- The recursive Levenshtein distance is achieved by some edit script. -/
theorem edits_levSpec : ∀ xs ys : List Char, Edits xs ys (levSpec xs ys) := by
  intro xs ys
  induction xs, ys using levSpec.induct with
  | case1 ys => rw [levSpec_nil_left]; exact edits_nil_left ys
  | case2 x xs => rw [levSpec_nil_right]; exact edits_nil_right _
  | case3 x xs y ys ih1 ih2 ih3 =>
    rw [levSpec_cons_cons]
    rcases min_cases (min (levSpec (x :: xs) ys + 1) (levSpec xs (y :: ys) + 1))
        (levSpec xs ys + if x = y then 0 else 1) with ⟨h, _⟩ | ⟨h, _⟩
    · rw [h]
      rcases min_cases (levSpec (x :: xs) ys + 1) (levSpec xs (y :: ys) + 1) with
        ⟨h2, _⟩ | ⟨h2, _⟩
      · rw [h2]; exact Edits.ins y ih1
      · rw [h2]; exact Edits.del x ih2
    · rw [h]
      by_cases hxy : x = y
      · subst hxy; simp only [if_pos rfl, Nat.add_zero]; exact Edits.keep x ih3
      · simp only [if_neg hxy]; exact Edits.subst x y ih3

/-- No edit script beats the recursive Levenshtein distance. -/
theorem levSpec_le_of_edits {xs ys : List Char} {n : Nat} (h : Edits xs ys n) :
    levSpec xs ys ≤ n := by
  induction h with
  | nil => simp [levSpec_nil_left]
  | keep c h ih =>
    rw [levSpec_cons_cons]
    refine le_trans (min_le_right _ _) ?_
    simpa using ih
  | subst c d h ih =>
    rw [levSpec_cons_cons]
    refine le_trans (min_le_right _ _) ?_
    have : (if c = d then 0 else 1) ≤ 1 := by split <;> omega
    omega
  | ins d h ih =>
    rename_i xs' ys' n'
    cases xs' with
    | nil => rw [levSpec_nil_left] at ih ⊢; simpa using Nat.add_le_add_right ih 1
    | cons x xs'' =>
      rw [levSpec_cons_cons]
      refine le_trans (min_le_left _ _) (le_trans (min_le_left _ _) ?_)
      exact Nat.add_le_add_right ih 1
  | del c h ih =>
    rename_i xs' ys' n'
    cases ys' with
    | nil => rw [levSpec_nil_right] at ih ⊢; simpa using Nat.add_le_add_right ih 1
    | cons y ys'' =>
      rw [levSpec_cons_cons]
      refine le_trans (min_le_left _ _) (le_trans (min_le_right _ _) ?_)
      exact Nat.add_le_add_right ih 1

/-- The recursive Levenshtein distance is the least cost of an edit
script. -/
theorem levSpec_isLeast (xs ys : List Char) :
    IsLeast {n | Edits xs ys n} (levSpec xs ys) :=
  ⟨edits_levSpec xs ys, fun _ hn => levSpec_le_of_edits hn⟩

theorem eq_of_edits_zero {xs ys : List Char} {n : Nat} (h : Edits xs ys n)
    (hn : n = 0) : xs = ys := by
  induction h with
  | nil => rfl
  | keep c h ih => rw [ih hn]
  | subst c d h ih => omega
  | ins d h ih => omega
  | del c h ih => omega

theorem levSpec_self : ∀ xs : List Char, levSpec xs xs = 0 := by
  intro xs
  induction xs with
  | nil => simp [levSpec_nil_left]
  | cons x xs ih =>
    have h := levSpec_cons_cons x x xs xs
    simp [ih] at h
    omega

theorem levSpec_eq_zero_iff (xs ys : List Char) : levSpec xs ys = 0 ↔ xs = ys := by
  constructor
  · intro h
    exact eq_of_edits_zero (edits_levSpec xs ys) h
  · rintro rfl
    exact levSpec_self xs

theorem edits_symm {xs ys : List Char} {n : Nat} (h : Edits xs ys n) :
    Edits ys xs n := by
  induction h with
  | nil => exact Edits.nil
  | keep c h ih => exact Edits.keep c ih
  | subst c d h ih => exact Edits.subst d c ih
  | ins d h ih => exact Edits.del d ih
  | del c h ih => exact Edits.ins c ih

theorem levSpec_symm (xs ys : List Char) : levSpec xs ys = levSpec ys xs :=
  (levSpec_isLeast xs ys).unique
    ⟨edits_symm (edits_levSpec ys xs), fun _ hn => levSpec_le_of_edits (edits_symm hn)⟩

theorem edits_append_keep {xs ys : List Char} {n : Nat} (c : Char)
    (h : Edits xs ys n) : Edits (xs ++ [c]) (ys ++ [c]) n := by
  induction h with
  | nil => exact Edits.keep c Edits.nil
  | keep e _ ih => exact Edits.keep e ih
  | subst e d _ ih => exact Edits.subst e d ih
  | ins d _ ih => exact Edits.ins d ih
  | del e _ ih => exact Edits.del e ih

theorem edits_append_subst {xs ys : List Char} {n : Nat} (c d : Char)
    (h : Edits xs ys n) : Edits (xs ++ [c]) (ys ++ [d]) (n + 1) := by
  induction h with
  | nil => exact Edits.subst c d Edits.nil
  | keep e _ ih => exact Edits.keep e ih
  | subst e f _ ih => exact Edits.subst e f ih
  | ins f _ ih => exact Edits.ins f ih
  | del e _ ih => exact Edits.del e ih

theorem edits_append_ins {xs ys : List Char} {n : Nat} (d : Char)
    (h : Edits xs ys n) : Edits xs (ys ++ [d]) (n + 1) := by
  induction h with
  | nil => exact Edits.ins d Edits.nil
  | keep e _ ih => exact Edits.keep e ih
  | subst e f _ ih => exact Edits.subst e f ih
  | ins f _ ih => exact Edits.ins f ih
  | del e _ ih => exact Edits.del e ih

theorem edits_append_del {xs ys : List Char} {n : Nat} (c : Char)
    (h : Edits xs ys n) : Edits (xs ++ [c]) ys (n + 1) := by
  induction h with
  | nil => exact Edits.del c Edits.nil
  | keep e _ ih => exact Edits.keep e ih
  | subst e f _ ih => exact Edits.subst e f ih
  | ins f _ ih => exact Edits.ins f ih
  | del e _ ih => exact Edits.del e ih

theorem edits_reverse {xs ys : List Char} {n : Nat} (h : Edits xs ys n) :
    Edits xs.reverse ys.reverse n := by
  induction h with
  | nil => exact Edits.nil
  | keep c _ ih => simpa using edits_append_keep c ih
  | subst c d _ ih => simpa using edits_append_subst c d ih
  | ins d _ ih => simpa using edits_append_ins d ih
  | del c _ ih => simpa using edits_append_del c ih

theorem levSpec_reverse (xs ys : List Char) :
    levSpec xs.reverse ys.reverse = levSpec xs ys := by
  refine (levSpec_isLeast xs.reverse ys.reverse).unique ⟨?_, ?_⟩
  · exact edits_reverse (edits_levSpec xs ys)
  · intro n hn
    have h2 := edits_reverse hn
    simp only [List.reverse_reverse] at h2
    exact levSpec_le_of_edits h2

/-- Levenshtein distance seen from the right: the distance between `u`
and `v` expressed through the recurrence on last characters, the form in
which the dynamic program fills its rows by prefixes. -/
def levSnoc (u v : List Char) : Nat := levSpec u.reverse v.reverse

theorem levSnoc_eq (u v : List Char) : levSnoc u v = levSpec u v :=
  levSpec_reverse u v

theorem levSnoc_nil_left (v : List Char) : levSnoc [] v = v.length := by
  simp [levSnoc, levSpec_nil_left]

theorem levSnoc_nil_right (u : List Char) : levSnoc u [] = u.length := by
  simp [levSnoc, levSpec_nil_right]

theorem levSnoc_snoc_snoc (u v : List Char) (c d : Char) :
    levSnoc (u ++ [c]) (v ++ [d]) =
      min (min (levSnoc (u ++ [c]) v + 1) (levSnoc u (v ++ [d]) + 1))
        (levSnoc u v + if c = d then 0 else 1) := by
  simp only [levSnoc, List.reverse_append, List.reverse_cons, List.reverse_nil,
    List.nil_append, List.cons_append]
  rw [levSpec_cons_cons]

/-- Row of the dynamic program once the prefix `p` of `a` has been
consumed: the distances from `p` to `v ++ w` for every prefix `w` of the
remaining columns `bs` (`v` is the already scanned prefix of `b`). -/
def distList (p v : List Char) : List Char → List Nat
  | [] => [levSnoc p v]
  | cb :: bs => levSnoc p v :: distList p (v ++ [cb]) bs

/-- Tail of `distList`: the same row without its first entry. -/
def distTail (p v : List Char) : List Char → List Nat
  | [] => []
  | cb :: bs => levSnoc p (v ++ [cb]) :: distTail p (v ++ [cb]) bs

theorem distList_eq_cons (p v : List Char) :
    ∀ bs : List Char, distList p v bs = levSnoc p v :: distTail p v bs := by
  intro bs
  induction bs generalizing v with
  | nil => rfl
  | cons cb bs ih => simp [distList, distTail, ih]

theorem distList_nil_left (bs : List Char) :
    ∀ v : List Char, distList [] v bs = List.range' v.length (bs.length + 1) := by
  induction bs with
  | nil => intro v; simp [distList, levSnoc_nil_left, List.range']
  | cons cb bs ih =>
    intro v
    have h := ih (v ++ [cb])
    simp only [List.length_append, List.length_singleton] at h
    simp [distList, levSnoc_nil_left, List.range'_succ, h]

theorem distList_getD (p : List Char) :
    ∀ (bs v : List Char), (distList p v bs).getD bs.length 0 = levSnoc p (v ++ bs) := by
  intro bs
  induction bs with
  | nil => intro v; simp [distList]
  | cons cb bs ih =>
    intro v
    have h := ih (v ++ [cb])
    simp only [List.append_assoc, List.singleton_append] at h
    simpa [distList] using h

theorem rowStep_spec (ca : Char) (p : List Char) :
    ∀ (bs v : List Char),
      rowStep ca bs (levSnoc p v :: distTail p v bs) (levSnoc (p ++ [ca]) v) =
        distTail (p ++ [ca]) v bs := by
  intro bs
  induction bs with
  | nil => intro v; rfl
  | cons cb bs ih =>
    intro v
    show rowStep ca (cb :: bs)
        (levSnoc p v :: levSnoc p (v ++ [cb]) :: distTail p (v ++ [cb]) bs)
        (levSnoc (p ++ [ca]) v) = distTail (p ++ [ca]) v (cb :: bs)
    rw [rowStep]
    have hmin :
        min (min (levSnoc (p ++ [ca]) v + 1) (levSnoc p (v ++ [cb]) + 1))
            (levSnoc p v + if ca = cb then 0 else 1) =
          levSnoc (p ++ [ca]) (v ++ [cb]) := (levSnoc_snoc_snoc p v ca cb).symm
    rw [hmin]
    rw [ih (v ++ [cb])]
    rfl

theorem levLoop_spec (b : List Char) :
    ∀ (rest p : List Char),
      levLoop b rest (distList p [] b) (p.length + 1) = distList (p ++ rest) [] b := by
  intro rest
  induction rest with
  | nil => intro p; simp [levLoop]
  | cons ca rest ih =>
    intro p
    rw [levLoop]
    have hi : p.length + 1 = levSnoc (p ++ [ca]) [] := by
      simp [levSnoc_nil_right]
    have hrow :
        (p.length + 1) :: rowStep ca b (distList p [] b) (p.length + 1) =
          distList (p ++ [ca]) [] b := by
      rw [distList_eq_cons p [] b, hi, rowStep_spec ca p b [],
        distList_eq_cons (p ++ [ca]) [] b]
    rw [hrow]
    have hlen : p.length + 1 + 1 = (p ++ [ca]).length + 1 := by simp
    rw [hlen, ih (p ++ [ca])]
    simp

theorem levenshtein_eq_levSpec (a b : List Char) :
    levenshtein a b = levSpec a b := by
  rw [levenshtein]
  by_cases hab : a = b
  · simp [hab, levSpec_self]
  rw [if_neg hab]
  by_cases ha : a.length = 0
  · have h0 : a = [] := List.length_eq_zero.mp ha
    subst h0
    simp [levSpec_nil_left]
  rw [if_neg ha]
  by_cases hb : b.length = 0
  · have h0 : b = [] := List.length_eq_zero.mp hb
    subst h0
    simp [levSpec_nil_right]
  rw [if_neg hb]
  have h0 : List.range (b.length + 1) = distList [] [] b := by
    rw [distList_nil_left b []]
    simp [List.range_eq_range']
  rw [h0]
  have h1 := levLoop_spec b a []
  simp only [List.length_nil, List.nil_append, Nat.zero_add] at h1
  rw [h1, distList_getD a b [], List.nil_append, levSnoc_eq]

theorem levenshtein_self (a : List Char) : levenshtein a a = 0 := by
  rw [levenshtein_eq_levSpec, levSpec_self]

theorem minutesOf_pos (e : ℚ) : 0 < minutesOf e :=
  lt_of_lt_of_le (by norm_num) (le_max_right _ _)

theorem compute_metrics_errors (target typed : List Char) (e : ℚ)
    (h : target.length ≠ 0) :
    (compute_metrics target typed e).errors = levenshtein target typed := by
  simp [compute_metrics, h]

theorem compute_metrics_wpm (target typed : List Char) (e : ℚ)
    (h : target.length ≠ 0) :
    (compute_metrics target typed e).wpm =
      (max 0 ((target.length : ℚ) - (levenshtein target typed : ℚ)) / 5) /
        minutesOf e := by
  simp [compute_metrics, h]

theorem compute_metrics_accuracy (target typed : List Char) (e : ℚ)
    (h : target.length ≠ 0) :
    (compute_metrics target typed e).accuracy =
      max 0 (((target.length : ℚ) - (levenshtein target typed : ℚ)) /
        (target.length : ℚ)) := by
  simp [compute_metrics, h]

theorem compute_metrics_stress (target typed : List Char) (e : ℚ)
    (h : target.length ≠ 0) :
    (compute_metrics target typed e).stress =
      min 100 (max 0
        ((1 / 2 * max 0 ((35 - (compute_metrics target typed e).wpm) / 35) +
          1 / 2 * (1 - (compute_metrics target typed e).accuracy)) * 100)) := by
  simp [compute_metrics, h]

theorem compute_metrics_wpm_nonneg (target typed : List Char) (e : ℚ) :
    0 ≤ (compute_metrics target typed e).wpm := by
  by_cases h : target.length = 0
  · simp [compute_metrics, h]
  · rw [compute_metrics_wpm target typed e h]
    exact div_nonneg (div_nonneg (le_max_left _ _) (by norm_num)) (minutesOf_pos e).le

theorem compute_metrics_accuracy_nonneg (target typed : List Char) (e : ℚ) :
    0 ≤ (compute_metrics target typed e).accuracy := by
  by_cases h : target.length = 0
  · simp [compute_metrics, h]
  · rw [compute_metrics_accuracy target typed e h]
    exact le_max_left _ _

theorem compute_metrics_accuracy_le_one (target typed : List Char) (e : ℚ) :
    (compute_metrics target typed e).accuracy ≤ 1 := by
  by_cases h : target.length = 0
  · simp [compute_metrics, h]
  · rw [compute_metrics_accuracy target typed e h]
    have hL : (0 : ℚ) < (target.length : ℚ) :=
      Nat.cast_pos.mpr (Nat.pos_of_ne_zero h)
    refine max_le (by norm_num) ((div_le_one hL).mpr ?_)
    have hd : (0 : ℚ) ≤ (levenshtein target typed : ℚ) := Nat.cast_nonneg _
    linarith

theorem compute_metrics_stress_nonneg (target typed : List Char) (e : ℚ) :
    0 ≤ (compute_metrics target typed e).stress := by
  by_cases h : target.length = 0
  · simp [compute_metrics, h]
  · rw [compute_metrics_stress target typed e h]
    exact le_min (by norm_num) (le_max_left _ _)

theorem compute_metrics_stress_le (target typed : List Char) (e : ℚ) :
    (compute_metrics target typed e).stress ≤ 100 := by
  by_cases h : target.length = 0
  · simp [compute_metrics, h]
  · rw [compute_metrics_stress target typed e h]
    exact min_le_left _ _

theorem stress_formula_mono {w1 w2 a1 a2 : ℚ} (hw : w2 ≤ w1) (ha : a2 ≤ a1) :
    min 100 (max 0 ((1 / 2 * max 0 ((35 - w1) / 35) + 1 / 2 * (1 - a1)) * 100)) ≤
      min 100 (max 0 ((1 / 2 * max 0 ((35 - w2) / 35) + 1 / 2 * (1 - a2)) * 100)) := by
  refine min_le_min (le_refl _) (max_le_max (le_refl _) ?_)
  refine mul_le_mul_of_nonneg_right ?_ (by norm_num)
  have h1 : max 0 ((35 - w1) / 35) ≤ max 0 ((35 - w2) / 35) := by
    refine max_le_max (le_refl _) ?_
    have : (35 : ℚ) - w1 ≤ 35 - w2 := by linarith
    linarith
  have h2 : (1 : ℚ) - a1 ≤ 1 - a2 := by linarith
  nlinarith [h1, h2]

theorem compute_metrics_wpm_antitone (target t1 t2 : List Char) (e : ℚ)
    (h : levenshtein target t1 ≤ levenshtein target t2)
    (hL : target.length ≠ 0) :
    (compute_metrics target t2 e).wpm ≤ (compute_metrics target t1 e).wpm := by
  rw [compute_metrics_wpm target t1 e hL, compute_metrics_wpm target t2 e hL]
  have hd : (levenshtein target t1 : ℚ) ≤ (levenshtein target t2 : ℚ) := by
    exact_mod_cast h
  have hnum : max 0 ((target.length : ℚ) - (levenshtein target t2 : ℚ)) ≤
      max 0 ((target.length : ℚ) - (levenshtein target t1 : ℚ)) := by
    refine max_le_max (le_refl _) ?_
    linarith
  have h5 : max 0 ((target.length : ℚ) - (levenshtein target t2 : ℚ)) / 5 ≤
      max 0 ((target.length : ℚ) - (levenshtein target t1 : ℚ)) / 5 := by
    linarith
  exact (div_le_div_iff_of_pos_right (minutesOf_pos e)).mpr h5

theorem compute_metrics_accuracy_antitone (target t1 t2 : List Char) (e : ℚ)
    (h : levenshtein target t1 ≤ levenshtein target t2)
    (hL : target.length ≠ 0) :
    (compute_metrics target t2 e).accuracy ≤ (compute_metrics target t1 e).accuracy := by
  rw [compute_metrics_accuracy target t1 e hL, compute_metrics_accuracy target t2 e hL]
  have hd : (levenshtein target t1 : ℚ) ≤ (levenshtein target t2 : ℚ) := by
    exact_mod_cast h
  have hLpos : (0 : ℚ) < (target.length : ℚ) :=
    Nat.cast_pos.mpr (Nat.pos_of_ne_zero hL)
  refine max_le_max (le_refl _) ?_
  exact (div_le_div_iff_of_pos_right hLpos).mpr (by linarith)

/-- C1: `levenshtein a b` equals the classic Levenshtein distance — it is
the least number of single-character insertions, deletions and
substitutions, each costing 1, that transform `a` into `b` — and it is 0
exactly when `a = b`. -/
theorem levenshtein_correct (a b : List Char) :
    IsLeast {n | Edits a b n} (levenshtein a b) ∧ (levenshtein a b = 0 ↔ a = b) := by
  rw [levenshtein_eq_levSpec]
  exact ⟨levSpec_isLeast a b, levSpec_eq_zero_iff a b⟩

/-- Witness for C1 at the concrete strings "ab" and "b". -/
theorem levenshtein_correct_witness :
    IsLeast {n | Edits ['a', 'b'] ['b'] n} (levenshtein ['a', 'b'] ['b']) ∧
      (levenshtein ['a', 'b'] ['b'] = 0 ↔ ['a', 'b'] = ['b']) :=
  levenshtein_correct ['a', 'b'] ['b']

/-- C2: for every non-empty target, `compute_metrics` returns exactly the
errors, WPM, accuracy and clamped stress formulas stated by the spec
(`computeMetricsSpec`). -/
theorem compute_metrics_eq_spec (target typed : List Char) (e : ℚ)
    (h : target ≠ []) :
    compute_metrics target typed e = computeMetricsSpec target typed e := by
  have hL : target.length ≠ 0 := fun hh => h (List.length_eq_zero.mp hh)
  simp only [compute_metrics, computeMetricsSpec, minutesOf, hL, if_false]
  simp only [Metrics.mk.injEq]
  refine ⟨trivial, trivial, trivial, ?_⟩
  conv_lhs => rw [min_comm, max_comm, mul_comm]

/-- Witness for C2 at target "ab", typed "a", elapsed 30 s. -/
theorem compute_metrics_eq_spec_witness :
    compute_metrics ['a', 'b'] ['a'] 30 = computeMetricsSpec ['a', 'b'] ['a'] 30 :=
  compute_metrics_eq_spec ['a', 'b'] ['a'] 30 (by simp)

/-- C3: with an empty target, `compute_metrics` short-circuits to
`wpm = 0, accuracy = 1, errors = 0, stress = 0` for every typed string
and every elapsed time; the degenerate case is an ordinary result, not an
error. -/
theorem compute_metrics_empty_target (typed : List Char) (e : ℚ) :
    compute_metrics [] typed e =
      { wpm := 0, accuracy := 1, errors := 0, stress := 0 } := rfl

/-- C4: `feedback_text` classifies the mood by stress with closed-open
intervals except at the top: `[0,20)` Relaxed, `[20,40)` Mild, `[40,70)`
Stressed, `[70,100]` High; in particular stress exactly 20 gives Mild and
stress exactly 70 or 100 gives High. -/
theorem feedback_mood_thresholds (m : Metrics) :
    (0 ≤ m.stress → m.stress < 20 → feedback_mood m = Mood.Relaxed) ∧
    (20 ≤ m.stress → m.stress < 40 → feedback_mood m = Mood.Mild) ∧
    (40 ≤ m.stress → m.stress < 70 → feedback_mood m = Mood.Stressed) ∧
    (70 ≤ m.stress → m.stress ≤ 100 → feedback_mood m = Mood.High) ∧
    (m.stress = 20 → feedback_mood m = Mood.Mild) ∧
    (m.stress = 70 → feedback_mood m = Mood.High) ∧
    (m.stress = 100 → feedback_mood m = Mood.High) := by
  simp only [feedback_mood]
  refine ⟨?_, ?_, ?_, ?_, ?_, ?_, ?_⟩ <;> intros <;> split_ifs <;>
    first | rfl | linarith

/-- Witness for C4 at the boundary stress values 20, 70 and 100. -/
theorem feedback_mood_thresholds_witness :
    feedback_mood { wpm := 0, accuracy := 0, errors := 0, stress := 20 } = Mood.Mild ∧
    feedback_mood { wpm := 0, accuracy := 0, errors := 0, stress := 70 } = Mood.High ∧
    feedback_mood { wpm := 0, accuracy := 0, errors := 0, stress := 100 } = Mood.High :=
  ⟨(feedback_mood_thresholds _).2.2.2.2.1 rfl,
    (feedback_mood_thresholds _).2.2.2.2.2.1 rfl,
    (feedback_mood_thresholds _).2.2.2.2.2.2 rfl⟩

/-- C5: the tip list of `feedback_text` is never empty and is built in
fixed order — the accuracy tip exactly when `accuracy < 0.85`, then the
speed tip exactly when `wpm < 25`, and the fallback maintenance tip
exactly when neither fired; with `accuracy ≥ 0.85` and `wpm ≥ 25` the
fallback tip is the only tip. -/
theorem feedback_tips_spec (m : Metrics) :
    feedback_tips m ≠ [] ∧
    (m.accuracy < 85 / 100 → m.wpm < 25 →
      feedback_tips m = ["Focus on accuracy over speed; make fewer mistakes.",
        "Practice typing regularly to increase speed (short daily drills)."]) ∧
    (m.accuracy < 85 / 100 → ¬ m.wpm < 25 →
      feedback_tips m = ["Focus on accuracy over speed; make fewer mistakes."]) ∧
    (¬ m.accuracy < 85 / 100 → m.wpm < 25 →
      feedback_tips m = ["Practice typing regularly to increase speed (short daily drills)."]) ∧
    (85 / 100 ≤ m.accuracy → 25 ≤ m.wpm →
      feedback_tips m = ["Keep up the good work — maintain steady practice!"]) := by
  refine ⟨?_, ?_, ?_, ?_, ?_⟩
  · simp only [feedback_tips]
    split_ifs <;> simp_all
  · intro h1 h2; simp [feedback_tips, h1, h2]
  · intro h1 h2; simp [feedback_tips, h1, h2]
  · intro h1 h2; simp [feedback_tips, h1, h2]
  · intro h1 h2; simp [feedback_tips, not_lt.mpr h1, not_lt.mpr h2]

/-- Witness for C5 at a metrics value with low accuracy and low speed,
and at one with high accuracy and high speed. -/
theorem feedback_tips_spec_witness :
    feedback_tips { wpm := 0, accuracy := 0, errors := 9, stress := 50 } =
      ["Focus on accuracy over speed; make fewer mistakes.",
        "Practice typing regularly to increase speed (short daily drills)."] ∧
    feedback_tips { wpm := 30, accuracy := 1, errors := 0, stress := 0 } =
      ["Keep up the good work — maintain steady practice!"] :=
  ⟨(feedback_tips_spec _).2.1 (by norm_num) (by norm_num),
    (feedback_tips_spec _).2.2.2.2 (by norm_num) (by norm_num)⟩

/-- C6: with the target and the elapsed time fixed, the stress score is
monotonically non-decreasing in the edit distance between the target and
the typed string. -/
theorem stress_monotone_in_distance (target t1 t2 : List Char) (e : ℚ)
    (h : levenshtein target t1 ≤ levenshtein target t2) :
    (compute_metrics target t1 e).stress ≤ (compute_metrics target t2 e).stress := by
  by_cases hL : target.length = 0
  · simp [compute_metrics, hL]
  · rw [compute_metrics_stress target t1 e hL, compute_metrics_stress target t2 e hL]
    exact stress_formula_mono (compute_metrics_wpm_antitone target t1 t2 e h hL)
      (compute_metrics_accuracy_antitone target t1 t2 e h hL)

/-- Witness for C6: a perfect transcription stresses no more than an
empty one. -/
theorem stress_monotone_in_distance_witness :
    (compute_metrics ['a', 'b'] ['a', 'b'] 10).stress ≤
      (compute_metrics ['a', 'b'] [] 10).stress :=
  stress_monotone_in_distance ['a', 'b'] ['a', 'b'] [] 10 (by decide)

/-- C7: every result of `compute_metrics` satisfies the data-model range
invariant: `wpm ≥ 0`, `accuracy ∈ [0,1]`, `errors ≥ 0` (a natural
number), `stress ∈ [0,100]`. -/
theorem compute_metrics_range_invariant (target typed : List Char) (e : ℚ) :
    0 ≤ (compute_metrics target typed e).wpm ∧
    0 ≤ (compute_metrics target typed e).accuracy ∧
    (compute_metrics target typed e).accuracy ≤ 1 ∧
    0 ≤ ((compute_metrics target typed e).errors : ℤ) ∧
    0 ≤ (compute_metrics target typed e).stress ∧
    (compute_metrics target typed e).stress ≤ 100 :=
  ⟨compute_metrics_wpm_nonneg target typed e,
    compute_metrics_accuracy_nonneg target typed e,
    compute_metrics_accuracy_le_one target typed e,
    Int.natCast_nonneg _,
    compute_metrics_stress_nonneg target typed e,
    compute_metrics_stress_le target typed e⟩

/-- C8 counterexample: the first target sentence has 44 characters, not
the 45 the claim asserts, so typing it perfectly in 60 s yields
`wpm = 44/5 = 8.8`, not `(45/5)/1 = 9.0`. -/
theorem sample_sentence_counterexample :
    sampleTarget.length ≠ 45 ∧
      (compute_metrics sampleTarget sampleTarget 60).wpm ≠ 9 := by
  have hlev : levenshtein sampleTarget sampleTarget = 0 := levenshtein_self _
  have hlen : sampleTarget.length = 44 := by decide
  constructor
  · rw [hlen]; norm_num
  · norm_num [compute_metrics, minutesOf, hlev, hlen, max_def, min_def]

/-- C8 (amended): for the first target sentence (44 characters), typed
identically with 60 s elapsed, `compute_metrics` returns errors 0,
accuracy 1, wpm 44/5 = 8.8 and stress 262/7 ≈ 37.4, which
`feedback_text` classifies as Mild. -/
theorem sample_sentence_metrics :
    sampleTarget.length = 44 ∧
    (compute_metrics sampleTarget sampleTarget 60).errors = 0 ∧
    (compute_metrics sampleTarget sampleTarget 60).accuracy = 1 ∧
    (compute_metrics sampleTarget sampleTarget 60).wpm = 44 / 5 ∧
    (compute_metrics sampleTarget sampleTarget 60).stress = 262 / 7 ∧
    feedback_mood (compute_metrics sampleTarget sampleTarget 60) = Mood.Mild := by
  have hlev : levenshtein sampleTarget sampleTarget = 0 := levenshtein_self _
  have hlen : sampleTarget.length = 44 := by decide
  refine ⟨hlen, ?_, ?_, ?_, ?_, ?_⟩ <;>
    norm_num [feedback_mood, compute_metrics, minutesOf, hlev, hlen, max_def,
      min_def]

/-- C9: `levenshtein` is symmetric in its two arguments even though the
dynamic program iterates rows over `a` and columns over `b`. -/
theorem levenshtein_symm (a b : List Char) : levenshtein a b = levenshtein b a := by
  rw [levenshtein_eq_levSpec, levenshtein_eq_levSpec, levSpec_symm]

/-- C10: `compute_metrics` is total in the elapsed time: the minutes
floor is strictly positive for every elapsed value (so the WPM division
is never by zero and WPM stays non-negative), and every non-positive
elapsed time produces exactly the result of elapsed time 0. -/
theorem compute_metrics_total (e : ℚ) :
    0 < minutesOf e ∧
    (e ≤ 0 → ∀ target typed : List Char,
      compute_metrics target typed e = compute_metrics target typed 0) ∧
    (∀ target typed : List Char, 0 ≤ (compute_metrics target typed e).wpm) := by
  refine ⟨minutesOf_pos e, ?_, fun target typed => compute_metrics_wpm_nonneg target typed e⟩
  intro he target typed
  have hmin : minutesOf e = minutesOf 0 := by
    unfold minutesOf
    rw [max_eq_right (by linarith : e / 60 ≤ (1 / 1000000 : ℚ)),
      max_eq_right (by norm_num : (0 : ℚ) / 60 ≤ (1 / 1000000 : ℚ))]
  simp [compute_metrics, hmin]

/-- Witness for C10 at elapsed time -5 s. -/
theorem compute_metrics_total_witness :
    0 < minutesOf (-5) ∧
      compute_metrics ['a'] ['b'] (-5) = compute_metrics ['a'] ['b'] 0 := by
  obtain ⟨h1, h2, h3⟩ := compute_metrics_total (-5)
  exact ⟨h1, h2 (by norm_num) ['a'] ['b']⟩

end CalmOMeter
